import Mathlib

/-!
Verification of the CSV normalization pipeline of
`src/src/data/process_csv.py` (football-history-data-science).

The Python source is shallowly embedded: DataFrames become ordered
association lists of columns, pandas cell values become a small `Value`
type (string / rational number / null), fallible steps return
`Except String`.  Pure helper functions (`normalize_team_name`, the
whitespace tokenizer behind Python's `str.split()`) are embedded at the
character-list level so that everything is executable.
-/

namespace FootballCsv

/-- Whitespace characters recognised by Python `str.split()` with no
separator argument (modelled for space, tab, newline, carriage return). -/
def isWs (c : Char) : Bool :=
  c = ' ' || c = '\t' || c = '\n' || c = '\r'

/-- Accumulator-based whitespace tokenizer: models Python `s.split()` at the
character-list level.  `acc` holds the current token, reversed. -/
def splitWsAcc : List Char → List Char → List (List Char)
  | [], acc => if acc.isEmpty then [] else [acc.reverse]
  | c :: cs, acc =>
    if isWs c then
      if acc.isEmpty then splitWsAcc cs [] else acc.reverse :: splitWsAcc cs []
    else
      splitWsAcc cs (c :: acc)

/-- Python `s.split()` on a character list: maximal runs of
non-whitespace characters, empties dropped. -/
def splitWs (l : List Char) : List (List Char) := splitWsAcc l []

/-- Python `" ".join` at the character-list level. -/
def joinWs : List (List Char) → List Char
  | [] => []
  | [p] => p
  | p :: q :: ps => p ++ ' ' :: joinWs (q :: ps)

/-- Tokens of a string: Python `team_name.split()`. -/
def strTokens (s : String) : List String := (splitWs s.data).map (fun l => ⟨l⟩)

/-- Rejoin tokens with single spaces: Python `" ".join(tokens)`. -/
def joinTokens (ts : List String) : String := ⟨joinWs (ts.map String.data)⟩

/-- Models Python `TEAM_NAME_CORRECTIONS.get(word, word)`: the corrections
dict is represented as an association list, first binding wins. -/
def lookupCorr (corr : List (String × String)) (k : String) : Option String :=
  (corr.find? (fun kv => kv.1 = k)).map (fun kv => kv.2)

/-- Python `TEAM_NAME_CORRECTIONS.get(word, word)`. -/
def applyCorr (corr : List (String × String)) (w : String) : String :=
  (lookupCorr corr w).getD w

/-- The word loop of `normalize_team_name` (process_csv.py:350-359):
replace each token via the corrections mapping, drop words that became
empty (`filter(None, ...)`). -/
def normTokens (corr : List (String × String)) (ts : List String) : List String :=
  (ts.map (applyCorr corr)).filter (fun w => w ≠ "")

/-- The function `normalize_team_name` from process_csv.py (string argument case),
parameterized by the corrections mapping the code reads from the global
`TEAM_NAME_CORRECTIONS`. -/
def normalize_team_name (corr : List (String × String)) (team_name : String) : String :=
  if team_name = "Tottenham Spurs" then "Tottenham Hotspur"
  else joinTokens (normTokens corr (strTokens team_name))

/-- The `team_name_corrections` table of `DEFAULT_CONFIG`
(process_csv.py:20-25). -/
def TEAM_NAME_CORRECTIONS : List (String × String) :=
  [("Utd", "United"), ("Nott\x27ham", "Nottingham"), ("Wolves", "Wolverhampton Wanderers"),
   ("Brighton", "Brighton & Hove Albion"), ("Tottenham", "Tottenham Hotspur"),
   ("West Ham", "West Ham United"), ("FC", ""), ("AFC", ""), ("Man", "Manchester"),
   ("Spurs", "Tottenham Hotspur")]

/-- The Team Name Normalizer algorithm exactly as §4.2 of the spec words
it: the special case is checked prior to tokenization; each token is
replaced by its correction when present; tokens that resolve to the empty
string are dropped; survivors are rejoined with single spaces. -/
def normalizeSpec (corr : List (String × String)) (raw : String) : String :=
  if raw = "Tottenham Spurs" then "Tottenham Hotspur"
  else
    joinTokens ((strTokens raw).filterMap (fun tok =>
      let r := (lookupCorr corr tok).getD tok
      if r = "" then none else some r))

/-! ## Cell values and pandas-style coercions -/

/-- A pandas cell: a string, a number (rationals model pandas numerics;
the claims never depend on IEEE rounding), or null (NaN / None / pd.NA). -/
inductive Value
  | vStr (s : String)
  | vNum (q : Rat)
  | vNull
deriving DecidableEq, Repr

/-- Numeric value of a digit run. -/
def digitsVal (l : List Char) : Nat :=
  l.foldl (fun n c => n * 10 + (c.toNat - 48)) 0

/-- Models the numeric parser behind `pd.to_numeric` on decimal literals:
optional sign, integer digits, optional fractional digits, at least one
digit overall (exponents and special floats are outside the data this
pipeline sees and are not modelled). -/
def parsePyNumber (s : String) : Option Rat :=
  let p := fun (sign : Bool) (l : List Char) =>
    let intPart := l.takeWhile (fun c => c.isDigit)
    let rest := l.dropWhile (fun c => c.isDigit)
    let mk := fun (ip fp : List Char) =>
      if ip.isEmpty && fp.isEmpty then none
      else
        let q : Rat := mkRat ((digitsVal ip * 10 ^ fp.length + digitsVal fp : Nat) : Int)
          (10 ^ fp.length)
        some (if sign then -q else q)
    match rest with
    | [] => mk intPart []
    | '.' :: fracRest =>
        if fracRest.dropWhile (fun c => c.isDigit) = ([] : List Char) then
          mk intPart (fracRest.takeWhile (fun c => c.isDigit))
        else none
    | _ => none
  match s.data with
  | '-' :: l => p true l
  | '+' :: l => p false l
  | l => p false l

/-- One cell under `pd.to_numeric(..., errors='coerce')`: strings parse or
become null, numbers pass through, null stays null. -/
def toNumericV : Value → Value
  | .vStr s => match parsePyNumber s with
      | some q => .vNum q
      | none => .vNull
  | .vNum q => .vNum q
  | .vNull => .vNull

def toNumericCol (vs : List Value) : List Value := vs.map toNumericV

/-- One cell under `.astype('Int64')` (pandas nullable integer) applied to
the output of `to_numeric`: null passes through, an integral number passes
through, a fractional number raises (pandas refuses the unsafe cast). -/
def astypeInt64V : Value → Except String Value
  | .vNull => .ok .vNull
  | .vNum q =>
      if q.den = 1 then .ok (.vNum q)
      else .error "cannot safely cast non-equivalent float64 to int64"
  | .vStr _ => .error "cannot safely cast object to int64"

def astypeInt64Col (vs : List Value) : Except String (List Value) :=
  vs.mapM astypeInt64V

/-! ## DataFrame model -/

/-- A DataFrame: an ordered association list of named columns.  All the
tables this pipeline builds keep their columns at equal length. -/
structure DF where
  cols : List (String × List Value)
deriving DecidableEq, Repr

def DF.colNames (df : DF) : List String := df.cols.map Prod.fst

def DF.hasCol (df : DF) (c : String) : Bool := df.cols.any (fun p => p.1 = c)

def DF.getCol (df : DF) (c : String) : Option (List Value) :=
  (df.cols.find? (fun p => p.1 = c)).map Prod.snd

def DF.getColD (df : DF) (c : String) : List Value := (df.getCol c).getD []

def DF.nrows (df : DF) : Nat :=
  match df.cols with
  | [] => 0
  | p :: _ => p.2.length

/-- Pandas `df[c] = vs`: overwrite the column in place when present, else append
it at the end (pandas column-assignment position semantics). -/
def DF.setCol (df : DF) (c : String) (vs : List Value) : DF :=
  if df.hasCol c then ⟨df.cols.map (fun p => if p.1 = c then (p.1, vs) else p)⟩
  else ⟨df.cols ++ [(c, vs)]⟩

/-- Pandas `df.drop(columns=cs)` (names absent from the table are simply kept
out of `cs` by the callers below). -/
def DF.dropCols (df : DF) (cs : List String) : DF :=
  ⟨df.cols.filter (fun p => ¬ cs.contains p.1)⟩

def cellAt (vs : List Value) (i : Nat) : Value := vs.getD i Value.vNull

def DF.rowHasNullIn (df : DF) (subset : List String) (i : Nat) : Bool :=
  subset.any (fun c => cellAt (df.getColD c) i = Value.vNull)

/-- Pandas `df.dropna(subset=subset)`: keep exactly the rows with no null in any
subset column. -/
def DF.dropnaSubset (df : DF) (subset : List String) : DF :=
  let keep := (List.range df.nrows).filter (fun i => ¬ df.rowHasNullIn subset i)
  ⟨df.cols.map (fun p => (p.1, keep.map (fun i => cellAt p.2 i)))⟩

/-- Pandas `df[cs]`: project onto the listed columns, in the listed order. -/
def DF.select (df : DF) (cs : List String) : DF :=
  ⟨cs.map (fun c => (c, df.getColD c))⟩

/-! ## Configuration (the `columns` / `team_name_corrections` sections) -/

structure Config where
  rows_to_drop : List String
  columns_to_drop : List String
  required_columns : List String
  cols_to_convert_int : List String
  cols_to_convert_float : List String
  cols_order : List String
  team_name_corrections : List (String × String)
deriving Repr

/-- The `columns` and `team_name_corrections` sections of `DEFAULT_CONFIG`
(process_csv.py:10-25). -/
def defaultConfig : Config :=
  { rows_to_drop := ["Date", "Home", "Away", "Venue"]
    columns_to_drop := ["Day", "Match Report", "Notes", "Venue", "Attendance", "Referee"]
    required_columns := ["Score", "Wk"]
    cols_to_convert_int := ["Wk", "Score_Home", "Score_Away"]
    cols_to_convert_float := ["xG_Home", "xG_Away"]
    cols_order := ["Wk", "Date", "Time", "Home", "xG_Home", "Score_Home",
                   "Score_Away", "xG_Away", "Away"]
    team_name_corrections := TEAM_NAME_CORRECTIONS }

/-! ## The pipeline of `clean_and_transform_data`, step by step -/

/-- process_csv.py:243-249 — drop rows with nulls in the present
`rows_to_drop` columns; skip silently when none is present. -/
def dropRowsStep (cfg : Config) (df : DF) : DF :=
  let existing_drop_cols := cfg.rows_to_drop.filter (fun c => df.hasCol c)
  if existing_drop_cols.isEmpty then df else df.dropnaSubset existing_drop_cols

/-- process_csv.py:252-254 — drop the present `columns_to_drop` columns. -/
def dropColumnsStep (cfg : Config) (df : DF) : DF :=
  df.dropCols (cfg.columns_to_drop.filter (fun c => df.hasCol c))

/-- process_csv.py:256-260 — raise `ValueError` at the first configured
required column that is absent. -/
def requiredColumnsStep (cfg : Config) (df : DF) : Except String DF :=
  match cfg.required_columns.find? (fun c => ¬ df.hasCol c) with
  | some c => .error ("Colonne obligatoire manquante : " ++ c)
  | none => .ok df

/-- The Row/Column Sanitizer: the first three blocks of
`clean_and_transform_data`, in source order. -/
def sanitizeSteps (cfg : Config) (df : DF) : Except String DF :=
  requiredColumnsStep cfg (dropColumnsStep cfg (dropRowsStep cfg df))

/-- process_csv.py:262-272 — copy `xG` to `xG_Home` and `xG.1` to
`xG_Away`, then coerce both to numeric (errors become null). -/
def xgConsolidateStep (df : DF) : DF :=
  let df1 := if df.hasCol "xG" then df.setCol "xG_Home" (df.getColD "xG") else df
  let df2 := if df1.hasCol "xG.1" then df1.setCol "xG_Away" (df1.getColD "xG.1") else df1
  let df3 := if df2.hasCol "xG_Home" then
      df2.setCol "xG_Home" (toNumericCol (df2.getColD "xG_Home")) else df2
  if df3.hasCol "xG_Away" then
    df3.setCol "xG_Away" (toNumericCol (df3.getColD "xG_Away")) else df3

/-- Python `s.split('–')` (en-dash, explicit separator) on a character
list: always at least one part, empty string gives one empty part. -/
def splitOnDash : List Char → List (List Char)
  | [] => [[]]
  | c :: cs =>
    if c = '–' then [] :: splitOnDash cs
    else
      match splitOnDash cs with
      | [] => [[c]]
      | t :: ts => (c :: t) :: ts

/-- Pandas `Series.str.split('–')` on one cell: strings split into their parts,
non-string cells give a single null (pandas yields NaN for them). -/
def splitPartsV : Value → List Value
  | .vStr s => (splitOnDash s.data).map (fun l => Value.vStr ⟨l⟩)
  | _ => [Value.vNull]

/-- The column count of `Series.str.split('–', expand=True)`: the maximum
part count over the rows. -/
def splitWidth (vals : List Value) : Nat :=
  (vals.map (fun v => (splitPartsV v).length)).foldr max 0

/-- process_csv.py:274-284 — the Score split.  The two-column assignment
`df[['Score_Home', 'Score_Away']] = df['Score'].str.split('–', expand=True)`
raises `ValueError: Columns must be same length as key` whenever the
expanded split does not have exactly two columns; rows with fewer parts
than the width are padded with null.  Both halves are then coerced to
numeric and the original `Score` column is dropped. -/
def scoreSplitStep (df : DF) : Except String DF :=
  if df.hasCol "Score" then
    let vals := df.getColD "Score"
    let parts := vals.map splitPartsV
    if splitWidth vals ≠ 2 then .error "Columns must be same length as key"
    else
      let home := parts.map (fun p => p.getD 0 Value.vNull)
      let away := parts.map (fun p => p.getD 1 Value.vNull)
      let df1 := (df.setCol "Score_Home" home).setCol "Score_Away" away
      let df2 := df1.setCol "Score_Home" (toNumericCol (df1.getColD "Score_Home"))
      let df3 := df2.setCol "Score_Away" (toNumericCol (df2.getColD "Score_Away"))
      .ok (df3.dropCols ["Score"])
  else .ok df

/-- process_csv.py:286-289 — drop leftover `xG` / `xG.1`. -/
def dropOriginalXgStep (df : DF) : DF :=
  df.dropCols (["xG", "xG.1"].filter (fun c => df.hasCol c))

/-- process_csv.py:291-297 — create every `cols_order` column that is
missing, filled with null (`df[col] = None`). -/
def fillMissingStep (cfg : Config) (df : DF) : DF :=
  let missing := cfg.cols_order.filter (fun c => ¬ df.hasCol c)
  missing.foldl (fun d c => d.setCol c (List.replicate d.nrows Value.vNull)) df

/-- Python `str(...)` on the non-string cells `normalize_team_name` can
receive (float formatting is irrelevant to every claim; `toString` on the
rational stands in for it). -/
def pyStr : Value → String
  | .vStr s => s
  | .vNull => "nan"
  | .vNum q => toString q

/-- The function `normalize_team_name` applied to one cell: non-strings are stringified
and returned without normalization (process_csv.py:342-343). -/
def normalizeValueV (corr : List (String × String)) : Value → Value
  | .vStr s => .vStr (normalize_team_name corr s)
  | v => .vStr (pyStr v)

/-- process_csv.py:299-304 — normalize the `Home` and `Away` columns. -/
def normalizeTeamsStep (cfg : Config) (df : DF) : DF :=
  let df1 := if df.hasCol "Home" then
      df.setCol "Home" ((df.getColD "Home").map (normalizeValueV cfg.team_name_corrections))
    else df
  if df1.hasCol "Away" then
    df1.setCol "Away" ((df1.getColD "Away").map (normalizeValueV cfg.team_name_corrections))
  else df1

/-- process_csv.py:306-311 — nullable-integer coercion of the configured
columns; the unsafe fractional cast propagates as an error. -/
def convertIntStep (cfg : Config) (df : DF) : Except String DF :=
  cfg.cols_to_convert_int.foldlM
    (fun d c =>
      if d.hasCol c then do
        let vs ← astypeInt64Col (toNumericCol (d.getColD c))
        pure (d.setCol c vs)
      else pure d)
    df

/-- process_csv.py:313-318 — float coercion of the configured columns. -/
def convertFloatStep (cfg : Config) (df : DF) : DF :=
  cfg.cols_to_convert_float.foldl
    (fun d c => if d.hasCol c then d.setCol c (toNumericCol (d.getColD c)) else d)
    df

/-- process_csv.py:320-323 — final projection onto the present
`cols_order` columns, in that order. -/
def reorderStep (cfg : Config) (df : DF) : DF :=
  df.select (cfg.cols_order.filter (fun c => df.hasCol c))

/-- The function `clean_and_transform_data` (process_csv.py:225-326): the composition
of all blocks above, in source order. -/
def clean_and_transform_data (cfg : Config) (df : DF) : Except String DF := do
  let dfA ← sanitizeSteps cfg df
  let dfB := xgConsolidateStep dfA
  let dfC ← scoreSplitStep dfB
  let dfD := dropOriginalXgStep dfC
  let dfE := fillMissingStep cfg dfD
  let dfF := normalizeTeamsStep cfg dfE
  let dfG ← convertIntStep cfg dfF
  let dfH := convertFloatStep cfg dfG
  pure (reorderStep cfg dfH)

deriving instance DecidableEq for Except

/-! ## Configuration loading: `load_config` and `init_config` -/

/-- Parsed YAML / Python values, as far as `init_config` inspects them. -/
inductive Yaml
  | ynull
  | ystr (s : String)
  | ybool (b : Bool)
  | ylist (items : List Yaml)
  | ydict (entries : List (String × Yaml))

def ystrs (l : List String) : Yaml := .ylist (l.map .ystr)

/-- The dict `DEFAULT_CONFIG` (process_csv.py:10-36) as a parsed-YAML value. -/
def DEFAULT_CONFIG : Yaml :=
  .ydict
    [("columns", .ydict
        [("rows_to_drop", ystrs ["Date", "Home", "Away", "Venue"]),
         ("columns_to_drop",
          ystrs ["Day", "Match Report", "Notes", "Venue", "Attendance", "Referee"]),
         ("required_columns", ystrs ["Score", "Wk"]),
         ("cols_to_convert_int", ystrs ["Wk", "Score_Home", "Score_Away"]),
         ("cols_to_convert_float", ystrs ["xG_Home", "xG_Away"]),
         ("cols_order", ystrs ["Wk", "Date", "Time", "Home", "xG_Home", "Score_Home",
                               "Score_Away", "xG_Away", "Away"])]),
     ("team_name_corrections",
      .ydict (TEAM_NAME_CORRECTIONS.map (fun kv => (kv.1, Yaml.ystr kv.2)))),
     ("paths", .ydict
        [("raw_dir", .ystr "raw"), ("processed_dir", .ystr "processed"),
         ("logs_dir", .ystr "logs")]),
     ("files", .ydict
        [("default_csv", .ystr "raw/Premier-League-2024-2025.csv"),
         ("process_all", .ybool true), ("file_pattern", .ystr "*.csv")])]

/-- The function `load_config` (process_csv.py:139-169), with the filesystem and the
YAML parser abstracted into inputs: `pathExists` says whether the resolved
config path exists, `parsed` is the outcome of opening and
`yaml.safe_load`-ing it.  A missing file and a parse exception both yield
`DEFAULT_CONFIG`; a successful parse is returned exactly as parsed,
whatever shape it has. -/
def load_config (pathExists : Bool) (parsed : Except String Yaml) : Yaml :=
  if !pathExists then DEFAULT_CONFIG
  else
    match parsed with
    | .ok config => config
    | .error _ => DEFAULT_CONFIG

/-- Python subscription `obj[key]` as `init_config` performs it: a dict
yields the entry or raises `KeyError`; `None` (what `yaml.safe_load`
returns for an empty file) and every other non-dict value raise
`TypeError`. -/
def ysub (y : Yaml) (k : String) : Except String Yaml :=
  match y with
  | .ydict es =>
      match es.find? (fun e => e.1 = k) with
      | some e => .ok e.2
      | none => .error ("KeyError: " ++ k)
  | .ynull => .error "TypeError: NoneType object is not subscriptable"
  | _ => .error "TypeError: object is not subscriptable"

/-- The configuration-extraction prefix of `init_config`
(process_csv.py:71-77): the subscriptions it performs, in source order.
There is no exception handler in `init_config`, so any `KeyError` or
`TypeError` propagates to its caller. -/
def init_config_extract (config : Yaml) : Except String (List Yaml) := do
  let cols ← ysub config "columns"
  let rows_to_drop ← ysub cols "rows_to_drop"
  let columns_to_drop ← ysub cols "columns_to_drop"
  let required_columns ← ysub cols "required_columns"
  let cols_to_convert_int ← ysub cols "cols_to_convert_int"
  let cols_to_convert_float ← ysub cols "cols_to_convert_float"
  let cols_order ← ysub cols "cols_order"
  let corrections ← ysub config "team_name_corrections"
  pure [rows_to_drop, columns_to_drop, required_columns, cols_to_convert_int,
        cols_to_convert_float, cols_order, corrections]

/-! ## Batch processing: `process_all_csv_files` -/

/-- The function `process_all_csv_files` (process_csv.py:435-472), with globbing and
the per-file pipeline abstracted into inputs: `files` is the matched file
list, `processOne` the outcome of `process_csv_data` on one file.  An
empty match set returns 0 early; otherwise each file is processed inside
`try/except`, so a failing file only skips the `success_count` increment
and the loop continues. -/
def process_all_csv_files {α β : Type} (processOne : α → Except String β)
    (files : List α) : Nat :=
  if files.isEmpty then 0
  else
    files.foldl
      (fun success_count f =>
        match processOne f with
        | .ok _ => success_count + 1
        | .error _ => success_count)
      0

/-! ## Basic lemmas about the DataFrame operations -/

theorem DF.hasCol_iff_mem (df : DF) (c : String) :
    df.hasCol c = true ↔ c ∈ df.colNames := by
  simp [DF.hasCol, DF.colNames, List.any_eq_true, List.mem_map]

theorem DF.colNames_setCol (df : DF) (c : String) (vs : List Value) :
    (df.setCol c vs).colNames =
      if df.hasCol c then df.colNames else df.colNames ++ [c] := by
  unfold DF.setCol
  by_cases h : df.hasCol c
  · simp only [h, if_true, DF.colNames, List.map_map]
    apply List.map_congr_left
    intro p _
    simp only [Function.comp]
    split <;> rfl
  · simp [h, DF.colNames]

theorem DF.hasCol_setCol_self (df : DF) (c : String) (vs : List Value) :
    (df.setCol c vs).hasCol c = true := by
  rw [DF.hasCol_iff_mem, DF.colNames_setCol]
  by_cases h : df.hasCol c
  · rw [if_pos h]
    exact (DF.hasCol_iff_mem df c).mp h
  · rw [if_neg h]
    exact List.mem_append_right _ (List.mem_singleton.mpr rfl)

theorem DF.hasCol_setCol_of (df : DF) (c : String) (vs : List Value) (x : String)
    (h : df.hasCol x = true) : (df.setCol c vs).hasCol x = true := by
  rw [DF.hasCol_iff_mem, DF.colNames_setCol]
  have hx := (DF.hasCol_iff_mem df x).mp h
  by_cases hc : df.hasCol c
  · rwa [if_pos hc]
  · rw [if_neg hc]
    exact List.mem_append_left _ hx

theorem DF.colNames_setCol_of_hasCol (df : DF) (c : String) (vs : List Value)
    (h : df.hasCol c = true) : (df.setCol c vs).colNames = df.colNames := by
  rw [DF.colNames_setCol, if_pos h]

/-- List-level helper: looking up `c` after the in-place overwrite of
column `c`. -/
theorem find?_overwrite (cols : List (String × List Value)) (c : String) (vs : List Value)
    (h : cols.any (fun p => p.1 = c) = true) :
    (cols.map (fun p => if p.1 = c then (p.1, vs) else p)).find? (fun p => p.1 = c) =
      some (c, vs) := by
  induction cols with
  | nil => simp at h
  | cons p rest ih =>
    by_cases hp : p.1 = c
    · rw [List.map_cons, if_pos hp, List.find?_cons_of_pos _ (by simpa using hp)]
      rw [hp]
    · rw [List.map_cons, if_neg hp, List.find?_cons_of_neg _ (by simpa using hp)]
      apply ih
      rcases List.any_eq_true.mp h with ⟨q, hq, hqc⟩
      rcases List.mem_cons.mp hq with rfl | hq2
      · exact absurd (by simpa using hqc) hp
      · exact List.any_eq_true.mpr ⟨q, hq2, hqc⟩

/-- List-level helper: looking up `d ≠ c` is unaffected by the in-place
overwrite of column `c`. -/
theorem find?_overwrite_ne (cols : List (String × List Value)) (c d : String) (vs : List Value)
    (hne : ¬ c = d) :
    (cols.map (fun p => if p.1 = c then (p.1, vs) else p)).find? (fun p => p.1 = d) =
      cols.find? (fun p => p.1 = d) := by
  induction cols with
  | nil => rfl
  | cons p rest ih =>
    have hfst : (if p.1 = c then (p.1, vs) else p).1 = p.1 := by split <;> rfl
    by_cases hp : p.1 = d
    · have hpc : ¬ p.1 = c := fun hcc => hne (hcc.symm.trans hp)
      rw [List.map_cons, if_neg hpc,
          List.find?_cons_of_pos _ (by simpa using hp),
          List.find?_cons_of_pos _ (by simpa using hp)]
    · rw [List.map_cons,
          List.find?_cons_of_neg _ (by simp [hfst, hp]),
          List.find?_cons_of_neg _ (by simpa using hp)]
      exact ih

/-- List-level helper: appending a fresh column and looking it up. -/
theorem find?_append_key (cols : List (String × List Value)) (c : String) (vs : List Value)
    (h : ∀ p ∈ cols, ¬ p.1 = c) :
    (cols ++ [(c, vs)]).find? (fun p => p.1 = c) = some (c, vs) := by
  induction cols with
  | nil => simp
  | cons p rest ih =>
    rw [List.cons_append,
        List.find?_cons_of_neg _ (by simpa using h p (List.mem_cons_self p rest))]
    exact ih (fun q hq => h q (List.mem_cons_of_mem p hq))

/-- List-level helper: appending column `c` does not affect looking up
`d ≠ c`. -/
theorem find?_append_ne (cols : List (String × List Value)) (c d : String) (vs : List Value)
    (hne : ¬ c = d) :
    (cols ++ [(c, vs)]).find? (fun p => p.1 = d) = cols.find? (fun p => p.1 = d) := by
  induction cols with
  | nil => simp [List.find?, hne]
  | cons p rest ih =>
    by_cases hp : p.1 = d
    · rw [List.cons_append, List.find?_cons_of_pos _ (by simpa using hp),
          List.find?_cons_of_pos _ (by simpa using hp)]
    · rw [List.cons_append, List.find?_cons_of_neg _ (by simpa using hp),
          List.find?_cons_of_neg _ (by simpa using hp)]
      exact ih

theorem DF.getCol_setCol_self (df : DF) (c : String) (vs : List Value) :
    (df.setCol c vs).getCol c = some vs := by
  unfold DF.setCol DF.getCol
  by_cases h : df.hasCol c
  · rw [if_pos h]
    dsimp only
    rw [find?_overwrite df.cols c vs h]
    rfl
  · rw [if_neg h]
    dsimp only
    have hall : ∀ p ∈ df.cols, ¬ p.1 = c := by
      intro p hp hpc
      unfold DF.hasCol at h
      exact h (List.any_eq_true.mpr ⟨p, hp, by simpa using hpc⟩)
    rw [find?_append_key df.cols c vs hall]
    rfl

theorem DF.getCol_setCol_ne (df : DF) (c d : String) (vs : List Value) (hne : ¬ c = d) :
    (df.setCol c vs).getCol d = df.getCol d := by
  unfold DF.setCol DF.getCol
  by_cases h : df.hasCol c
  · rw [if_pos h]
    dsimp only
    rw [find?_overwrite_ne df.cols c d vs hne]
  · rw [if_neg h]
    dsimp only
    rw [find?_append_ne df.cols c d vs hne]

theorem DF.getCol_some_hasCol (df : DF) (c : String) (vs : List Value)
    (h : df.getCol c = some vs) : df.hasCol c = true := by
  unfold DF.getCol at h
  cases hf : df.cols.find? (fun p => p.1 = c) with
  | none => rw [hf] at h; simp at h
  | some p =>
    have hmem := List.mem_of_find?_eq_some hf
    have hpred := List.find?_some hf
    unfold DF.hasCol
    exact List.any_eq_true.mpr ⟨p, hmem, hpred⟩

theorem DF.getColD_eq (df : DF) (c : String) (vs : List Value)
    (h : df.getCol c = some vs) : df.getColD c = vs := by
  unfold DF.getColD
  rw [h]
  rfl

/-- List-level helper: dropping other columns does not affect looking up
a column that is not dropped. -/
theorem find?_filter_not_dropped (cols : List (String × List Value)) (cs : List String)
    (c : String) (h : ¬ cs.contains c = true) :
    (cols.filter (fun p => ¬ cs.contains p.1)).find? (fun p => p.1 = c) =
      cols.find? (fun p => p.1 = c) := by
  induction cols with
  | nil => rfl
  | cons p rest ih =>
    by_cases hdrop : cs.contains p.1 = true
    · have hp : ¬ p.1 = c := fun he => h (he ▸ hdrop)
      rw [List.filter_cons, if_neg (by simpa using hdrop),
          List.find?_cons_of_neg _ (by simpa using hp)]
      exact ih
    · rw [List.filter_cons, if_pos (by simpa using hdrop)]
      by_cases hp : p.1 = c
      · rw [List.find?_cons_of_pos _ (by simpa using hp),
            List.find?_cons_of_pos _ (by simpa using hp)]
      · rw [List.find?_cons_of_neg _ (by simpa using hp),
            List.find?_cons_of_neg _ (by simpa using hp)]
        exact ih

theorem DF.getCol_dropCols_of_not_mem (df : DF) (cs : List String) (c : String)
    (h : ¬ cs.contains c = true) :
    (df.dropCols cs).getCol c = df.getCol c := by
  unfold DF.dropCols DF.getCol
  dsimp only
  rw [find?_filter_not_dropped df.cols cs c h]

theorem DF.hasCol_dropCols_of_mem (df : DF) (cs : List String) (c : String)
    (h : cs.contains c = true) :
    (df.dropCols cs).hasCol c = false := by
  unfold DF.dropCols DF.hasCol
  dsimp only
  rw [Bool.eq_false_iff]
  intro hany
  obtain ⟨p, hp, hpc⟩ := List.any_eq_true.mp hany
  rw [List.mem_filter] at hp
  have hpc2 : p.1 = c := by simpa using hpc
  have h2 := hp.2
  rw [hpc2] at h2
  simp [h] at h2
  exact h2 (by simpa using h)

theorem DF.colNames_dropnaSubset (df : DF) (subset : List String) :
    (df.dropnaSubset subset).colNames = df.colNames := by
  simp [DF.dropnaSubset, DF.colNames, List.map_map, Function.comp]

theorem DF.colNames_select (df : DF) (cs : List String) :
    (df.select cs).colNames = cs := by
  unfold DF.select DF.colNames
  dsimp only
  rw [List.map_map]
  have hc : (Prod.fst ∘ fun c => (c, df.getColD c)) = id := by
    funext c
    rfl
  rw [hc, List.map_id]

/-! ## Column-set behaviour of the pipeline steps -/

theorem exceptBind_ok {α β : Type} (a : α) (k : α → Except String β) :
    ((.ok a : Except String α) >>= k) = k a := rfl

theorem exceptBind_error {α β : Type} (e : String) (k : α → Except String β) :
    ((.error e : Except String α) >>= k) = .error e := rfl

theorem exceptPure {α : Type} (a : α) : (pure a : Except String α) = .ok a := rfl

theorem colNames_dropRowsStep (cfg : Config) (df : DF) :
    (dropRowsStep cfg df).colNames = df.colNames := by
  unfold dropRowsStep
  by_cases h : (cfg.rows_to_drop.filter (fun c => df.hasCol c)).isEmpty
  · simp [h]
  · simp [h, DF.colNames_dropnaSubset]

theorem requiredColumnsStep_ok (cfg : Config) (df out : DF)
    (h : requiredColumnsStep cfg df = .ok out) : out = df := by
  unfold requiredColumnsStep at h
  split at h
  · cases h
  · injection h with h2
    exact h2.symm

theorem colNames_setCol_guarded (df : DF) (c : String) (vs : List Value) :
    (if df.hasCol c then df.setCol c vs else df).colNames = df.colNames := by
  by_cases h : df.hasCol c
  · rw [if_pos h]
    exact DF.colNames_setCol_of_hasCol df c vs h
  · rw [if_neg h]

theorem hasCol_foldl_setCol (L : List String) (df : DF) (x : String)
    (h : df.hasCol x = true ∨ x ∈ L) :
    (L.foldl (fun d c => d.setCol c (List.replicate d.nrows Value.vNull)) df).hasCol x
      = true := by
  induction L generalizing df with
  | nil =>
    rcases h with h | h
    · exact h
    · cases h
  | cons c rest ih =>
    simp only [List.foldl_cons]
    apply ih
    rcases h with h | h
    · left
      exact DF.hasCol_setCol_of _ _ _ _ h
    · rcases List.mem_cons.mp h with rfl | h2
      · left
        exact DF.hasCol_setCol_self _ _ _
      · right
        exact h2

theorem fillMissing_hasCol (cfg : Config) (df : DF) (c : String)
    (hc : c ∈ cfg.cols_order) :
    (fillMissingStep cfg df).hasCol c = true := by
  unfold fillMissingStep
  apply hasCol_foldl_setCol
  by_cases h : df.hasCol c
  · left
    exact h
  · right
    exact List.mem_filter.mpr ⟨hc, by simpa using h⟩

theorem colNames_normalizeTeamsStep (cfg : Config) (df : DF) :
    (normalizeTeamsStep cfg df).colNames = df.colNames := by
  unfold normalizeTeamsStep
  dsimp only
  rw [colNames_setCol_guarded, colNames_setCol_guarded]

theorem colNames_convertIntAux (L : List String) (df out : DF)
    (h : L.foldlM
        (fun d c =>
          if d.hasCol c then do
            let vs ← astypeInt64Col (toNumericCol (d.getColD c))
            pure (d.setCol c vs)
          else pure d)
        df = .ok out) :
    out.colNames = df.colNames := by
  induction L generalizing df with
  | nil =>
    rw [List.foldlM_nil, exceptPure] at h
    injection h with h2
    rw [h2]
  | cons c rest ih =>
    rw [List.foldlM_cons] at h
    by_cases hc : df.hasCol c
    · rw [if_pos hc] at h
      cases ha : astypeInt64Col (toNumericCol (df.getColD c)) with
      | error e =>
        rw [ha, exceptBind_error, exceptBind_error] at h
        cases h
      | ok vs =>
        rw [ha, exceptBind_ok, exceptPure, exceptBind_ok] at h
        rw [ih _ h]
        exact DF.colNames_setCol_of_hasCol df c vs hc
    · rw [if_neg hc, exceptPure, exceptBind_ok] at h
      exact ih _ h

theorem colNames_convertIntStep (cfg : Config) (df out : DF)
    (h : convertIntStep cfg df = .ok out) : out.colNames = df.colNames := by
  unfold convertIntStep at h
  exact colNames_convertIntAux cfg.cols_to_convert_int df out h

theorem colNames_convertFloatAux (L : List String) (df : DF) :
    (L.foldl
        (fun d c => if d.hasCol c then d.setCol c (toNumericCol (d.getColD c)) else d)
        df).colNames = df.colNames := by
  induction L generalizing df with
  | nil => rfl
  | cons c rest ih =>
    simp only [List.foldl_cons]
    rw [ih]
    exact colNames_setCol_guarded df c _

theorem colNames_convertFloatStep (cfg : Config) (df : DF) :
    (convertFloatStep cfg df).colNames = df.colNames := by
  unfold convertFloatStep
  exact colNames_convertFloatAux cfg.cols_to_convert_float df

/-- The central column invariant: whenever `clean_and_transform_data`
succeeds, the output table's columns are exactly `cols_order`, in order
(after the null-fill step every `cols_order` column exists, so the final
projection keeps all of `cols_order`). -/
theorem colNames_clean_and_transform (cfg : Config) (df out : DF)
    (h : clean_and_transform_data cfg df = .ok out) :
    out.colNames = cfg.cols_order := by
  unfold clean_and_transform_data at h
  cases hs : sanitizeSteps cfg df with
  | error e =>
    rw [hs, exceptBind_error] at h
    cases h
  | ok dfA =>
    rw [hs, exceptBind_ok] at h
    dsimp only at h
    cases hsp : scoreSplitStep (xgConsolidateStep dfA) with
    | error e =>
      rw [hsp, exceptBind_error] at h
      cases h
    | ok dfC =>
      rw [hsp, exceptBind_ok] at h
      cases hci : convertIntStep cfg
          (normalizeTeamsStep cfg (fillMissingStep cfg (dropOriginalXgStep dfC))) with
      | error e =>
        rw [hci, exceptBind_error] at h
        cases h
      | ok dfG =>
        rw [hci, exceptBind_ok, exceptPure] at h
        injection h with h2
        rw [← h2]
        unfold reorderStep
        rw [DF.colNames_select]
        apply List.filter_eq_self.mpr
        intro c hc
        have h3 : c ∈ (fillMissingStep cfg (dropOriginalXgStep dfC)).colNames :=
          (DF.hasCol_iff_mem _ c).mp (fillMissing_hasCol cfg _ c hc)
        have h4 : c ∈ dfG.colNames := by
          rw [colNames_convertIntStep cfg _ dfG hci, colNames_normalizeTeamsStep]
          exact h3
        have h5 : c ∈ (convertFloatStep cfg dfG).colNames := by
          rw [colNames_convertFloatStep]
          exact h4
        simpa using (DF.hasCol_iff_mem _ c).mpr h5

/-! ## Concrete tables used in claim instances -/

def dfC1 : DF :=
  ⟨[("Score", [Value.vStr "2–0"]),
    ("Wk", [Value.vStr "1"]),
    ("Date", [Value.vStr "2024-08-16"]),
    ("Home", [Value.vStr "Man Utd"]),
    ("Away", [Value.vStr "Fulham"])]⟩

def outC1 : DF :=
  ⟨[("Wk", [Value.vNum 1]), ("Date", [Value.vStr "2024-08-16"]), ("Time", [Value.vNull]),
    ("Home", [Value.vStr "Manchester United"]), ("xG_Home", [Value.vNull]),
    ("Score_Home", [Value.vNum 2]), ("Score_Away", [Value.vNum 0]),
    ("xG_Away", [Value.vNull]), ("Away", [Value.vStr "Fulham"])]⟩

def dfC10frac : DF :=
  ⟨[("Score", [Value.vStr "2–0"]), ("Wk", [Value.vStr "2.5"])]⟩

def dfC10str : DF :=
  ⟨[("Score", [Value.vStr "2–0"]), ("Wk", [Value.vStr "abc"])]⟩

/-! ## Claim theorems -/

/-- Claim C1: for every input table and configuration, whenever
`clean_and_transform_data` succeeds its output's column list is exactly
`cols_order`, in `cols_order`'s order, independent of the input table's
column order, and no other column remains.  (The null-fill step creates
every `cols_order` column that was missing, so the subset of `cols_order`
that exists after null-fill is all of `cols_order`.) -/
theorem C1_output_columns_exact (cfg : Config) (df out : DF)
    (h : clean_and_transform_data cfg df = .ok out) :
    out.colNames = cfg.cols_order :=
  colNames_clean_and_transform cfg df out h

/-- Witness for C1: a concrete scrambled-order table under the default
configuration. -/
theorem C1_output_columns_exact_witness :
    outC1.colNames = defaultConfig.cols_order :=
  C1_output_columns_exact defaultConfig dfC1 outC1 (by decide)

/-- Whether a per-file outcome is a success. -/
def okB {β : Type} (r : Except String β) : Bool :=
  match r with
  | .ok _ => true
  | .error _ => false

theorem foldl_success_count {α β : Type} (po : α → Except String β) (files : List α)
    (n : Nat) :
    files.foldl
      (fun success_count f =>
        match po f with
        | .ok _ => success_count + 1
        | .error _ => success_count)
      n = n + (files.filter (fun f => okB (po f))).length := by
  induction files generalizing n with
  | nil => simp
  | cons f rest ih =>
    rw [List.foldl_cons, List.filter_cons, ih]
    cases hf : po f with
    | ok b =>
      simp [okB]
      rw [Nat.add_assoc, Nat.add_comm 1]
    | error e =>
      simp [okB]

/-- Claim C7: batch processing invokes per-file processing on every
matched file, counts (rather than propagates) per-file failures, and
returns the success count; an empty match set returns 0; three good
files plus one malformed file give 3. -/
theorem C7_batch_counts_successes :
    (∀ (α β : Type) (po : α → Except String β) (files : List α),
        process_all_csv_files po files = (files.filter (fun f => okB (po f))).length) ∧
    (∀ (α β : Type) (po : α → Except String β),
        process_all_csv_files po ([] : List α) = 0) ∧
    process_all_csv_files (fun r => r)
      ([.ok 1, .ok 2, .error "malformed", .ok 3] : List (Except String Nat)) = 3 := by
  have hmain : ∀ (α β : Type) (po : α → Except String β) (files : List α),
      process_all_csv_files po files = (files.filter (fun f => okB (po f))).length := by
    intro α β po files
    unfold process_all_csv_files
    by_cases h : files.isEmpty
    · rw [if_pos h]
      have he : files = [] := List.isEmpty_iff.mp h
      subst he
      rfl
    · rw [if_neg h]
      rw [foldl_success_count po files 0]
      omega
  exact ⟨hmain, fun α β po => hmain α β po [], by decide⟩

/-- Claim C8: configuration loading returns the hard-coded default when
the path does not exist or when parsing fails; the parse exception is
absorbed (the function is total, returning a configuration in every
case) and never propagates. -/
theorem C8_load_config_defaults :
    (∀ parsed : Except String Yaml, load_config false parsed = DEFAULT_CONFIG) ∧
    (∀ msg : String, load_config true (.error msg) = DEFAULT_CONFIG) :=
  ⟨fun _ => rfl, fun _ => rfl⟩

/-- Claim C9: a config file that exists and parses successfully but has
the wrong shape (null from an empty file; a mapping without "columns")
makes `init_config`'s extraction propagate a TypeError/KeyError to its
caller instead of falling back to the defaults, while a parse failure
does fall back and extraction then succeeds. -/
theorem C9_shape_errors_propagate :
    init_config_extract (load_config true (.ok .ynull)) =
      .error "TypeError: NoneType object is not subscriptable" ∧
    init_config_extract (load_config true (.ok (.ydict [("files", .ydict [])]))) =
      .error "KeyError: columns" ∧
    (∃ r, init_config_extract (load_config true (.error "while parsing a block mapping")) =
      .ok r) :=
  ⟨rfl, rfl, ⟨_, rfl⟩⟩

/-- Claim C10: the nullable-integer coercion is not total: a numeric but
non-integral `Wk` value such as "2.5" makes the transform raise (the
`Int64` cast refuses the non-equivalent float), while a non-numeric value
such as "abc" becomes null as usual. -/
theorem C10_fractional_int_cast_raises :
    clean_and_transform_data defaultConfig dfC10frac =
      .error "cannot safely cast non-equivalent float64 to int64" ∧
    (clean_and_transform_data defaultConfig dfC10str).toOption.map
      (fun out => out.getCol "Wk") = some (some [Value.vNull]) := by
  constructor
  · decide
  · decide

def dfC4noScore : DF :=
  ⟨[("Wk", [Value.vStr "1"]), ("Date", [Value.vStr "2024-08-16"])]⟩

def dfC4noVenue : DF :=
  ⟨[("Score", [Value.vStr "2–0"]), ("Wk", [Value.vStr "1"])]⟩

/-- Claim C4: when some configured required column is absent after the
row-drop and column-drop steps, sanitization fails with the
missing-required-column error naming a missing column; concretely, a
default-configuration table without `Score` fails naming `Score`, while a
table merely missing the optional `Venue` column sanitizes without
error. -/
theorem C4_required_columns (cfg : Config) (df : DF)
    (h : ∃ c ∈ cfg.required_columns,
        (dropColumnsStep cfg (dropRowsStep cfg df)).hasCol c = false) :
    (∃ c ∈ cfg.required_columns,
        (dropColumnsStep cfg (dropRowsStep cfg df)).hasCol c = false ∧
          sanitizeSteps cfg df = .error ("Colonne obligatoire manquante : " ++ c)) ∧
    sanitizeSteps defaultConfig dfC4noScore =
      .error "Colonne obligatoire manquante : Score" ∧
    (∃ out, sanitizeSteps defaultConfig dfC4noVenue = .ok out) := by
  refine ⟨?_, by decide, ⟨dfC4noVenue, by decide⟩⟩
  obtain ⟨c, hc, hcol⟩ := h
  cases hf : cfg.required_columns.find?
      (fun c => ¬ (dropColumnsStep cfg (dropRowsStep cfg df)).hasCol c) with
  | none =>
    exfalso
    rw [List.find?_eq_none] at hf
    exact hf c hc (by simp [hcol])
  | some c0 =>
    have hmem := List.mem_of_find?_eq_some hf
    have hpred := List.find?_some hf
    refine ⟨c0, hmem, by simpa using hpred, ?_⟩
    unfold sanitizeSteps requiredColumnsStep
    rw [hf]

/-- Witness for C4 at the concrete tables. -/
theorem C4_required_columns_witness :
    (∃ c ∈ defaultConfig.required_columns,
        (dropColumnsStep defaultConfig (dropRowsStep defaultConfig dfC4noScore)).hasCol c
          = false ∧
          sanitizeSteps defaultConfig dfC4noScore =
            .error ("Colonne obligatoire manquante : " ++ c)) ∧
    sanitizeSteps defaultConfig dfC4noScore =
      .error "Colonne obligatoire manquante : Score" ∧
    (∃ out, sanitizeSteps defaultConfig dfC4noVenue = .ok out) :=
  C4_required_columns defaultConfig dfC4noScore (by decide)

/-! ## The score-split step in detail (C2, C3) -/

theorem splitWidth_eq_two (vals : List Value) (hne : vals ≠ [])
    (h : ∀ v ∈ vals, (splitPartsV v).length = 2) : splitWidth vals = 2 := by
  induction vals with
  | nil => exact absurd rfl hne
  | cons v rest ih =>
    unfold splitWidth
    rw [List.map_cons, List.foldr_cons]
    rcases rest with _ | ⟨w, rest2⟩
    · simp [h v (List.mem_cons_self v [])]
    · have h2 := ih (by simp) (fun x hx => h x (List.mem_cons_of_mem v hx))
      unfold splitWidth at h2
      rw [h2, h v (List.mem_cons_self v _)]
      simp

/-- What the score-split step does when the expanded split has exactly
two columns: `Score_Home` and `Score_Away` receive the numeric coercions
of the first and second part of each row's split, and `Score` is gone. -/
theorem scoreSplitStep_spec (df : DF) (vals : List Value)
    (hget : df.getCol "Score" = some vals)
    (hw : splitWidth vals = 2) :
    ∃ df2, scoreSplitStep df = .ok df2 ∧
      df2.getCol "Score_Home" =
        some (vals.map (fun v => toNumericV ((splitPartsV v).getD 0 Value.vNull))) ∧
      df2.getCol "Score_Away" =
        some (vals.map (fun v => toNumericV ((splitPartsV v).getD 1 Value.vNull))) ∧
      df2.hasCol "Score" = false := by
  have hhas := DF.getCol_some_hasCol df "Score" vals hget
  have hgetD := DF.getColD_eq df "Score" vals hget
  unfold scoreSplitStep
  rw [if_pos hhas, hgetD]
  rw [if_neg (by simp [hw])]
  dsimp only
  have hAH : ¬ ("Score_Away" = "Score_Home") := by decide
  have hHA : ¬ ("Score_Home" = "Score_Away") := by decide
  set home := (vals.map splitPartsV).map (fun p => p.getD 0 Value.vNull) with hhome
  set away := (vals.map splitPartsV).map (fun p => p.getD 1 Value.vNull) with haway
  set df1 := (df.setCol "Score_Home" home).setCol "Score_Away" away with hdf1
  have h1H : df1.getCol "Score_Home" = some home := by
    rw [hdf1, DF.getCol_setCol_ne _ _ _ _ hAH, DF.getCol_setCol_self]
  have h1A : df1.getCol "Score_Away" = some away := by
    rw [hdf1, DF.getCol_setCol_self]
  set df2 := df1.setCol "Score_Home" (toNumericCol (df1.getColD "Score_Home")) with hdf2
  have h2H : df2.getCol "Score_Home" = some (toNumericCol home) := by
    rw [hdf2, DF.getColD_eq _ _ _ h1H, DF.getCol_setCol_self]
  have h2A : df2.getCol "Score_Away" = some away := by
    rw [hdf2, DF.getCol_setCol_ne _ _ _ _ hHA, h1A]
  set df3 := df2.setCol "Score_Away" (toNumericCol (df2.getColD "Score_Away")) with hdf3
  have h3H : df3.getCol "Score_Home" = some (toNumericCol home) := by
    rw [hdf3, DF.getCol_setCol_ne _ _ _ _ hAH, h2H]
  have h3A : df3.getCol "Score_Away" = some (toNumericCol away) := by
    rw [hdf3, DF.getColD_eq _ _ _ h2A, DF.getCol_setCol_self]
  refine ⟨df3.dropCols ["Score"], rfl, ?_, ?_, ?_⟩
  · rw [DF.getCol_dropCols_of_not_mem _ _ _ (by decide), h3H, hhome]
    rw [toNumericCol, List.map_map, List.map_map]
    rfl
  · rw [DF.getCol_dropCols_of_not_mem _ _ _ (by decide), h3A, haway]
    rw [toNumericCol, List.map_map, List.map_map]
    rfl
  · exact DF.hasCol_dropCols_of_mem _ _ _ (by decide)

def dfC2 : DF :=
  ⟨[("Score", [Value.vStr "2–0"]), ("Wk", [Value.vStr "1"]),
    ("Home", [Value.vStr "Arsenal"]), ("Away", [Value.vStr "Chelsea"])]⟩

/-- Claim C2: when a `Score` column is present and every value splits on
the en-dash into exactly two parts, the step assigns the numeric
coercions of the two parts to `Score_Home`/`Score_Away` (non-numeric
parts become null, by definition of `toNumericV`) and removes `Score`;
concretely, a row with `Score = "2–0"` comes out of the whole transform
with `Score_Home = 2`, `Score_Away = 0` and no `Score` column. -/
theorem C2_score_split (df : DF) (vals : List Value)
    (hget : df.getCol "Score" = some vals) (hne : vals ≠ [])
    (h2 : ∀ v ∈ vals, (splitPartsV v).length = 2) :
    (∃ df2, scoreSplitStep df = .ok df2 ∧
      df2.getCol "Score_Home" =
        some (vals.map (fun v => toNumericV ((splitPartsV v).getD 0 Value.vNull))) ∧
      df2.getCol "Score_Away" =
        some (vals.map (fun v => toNumericV ((splitPartsV v).getD 1 Value.vNull))) ∧
      df2.hasCol "Score" = false) ∧
    (clean_and_transform_data defaultConfig dfC2).toOption.map
      (fun out => (out.getCol "Score_Home", out.getCol "Score_Away", out.hasCol "Score")) =
      some (some [Value.vNum 2], some [Value.vNum 0], false) :=
  ⟨scoreSplitStep_spec df vals hget (splitWidth_eq_two vals hne h2), by decide⟩

def dfC2w : DF :=
  ⟨[("Score", [Value.vStr "1–1", Value.vStr "0–3"]), ("Wk", [Value.vStr "1", Value.vStr "1"])]⟩

/-- Witness for C2 at a two-row table. -/
theorem C2_score_split_witness :
    (∃ df2, scoreSplitStep dfC2w = .ok df2 ∧
      df2.getCol "Score_Home" =
        some (([Value.vStr "1–1", Value.vStr "0–3"]).map
          (fun v => toNumericV ((splitPartsV v).getD 0 Value.vNull))) ∧
      df2.getCol "Score_Away" =
        some (([Value.vStr "1–1", Value.vStr "0–3"]).map
          (fun v => toNumericV ((splitPartsV v).getD 1 Value.vNull))) ∧
      df2.hasCol "Score" = false) ∧
    (clean_and_transform_data defaultConfig dfC2).toOption.map
      (fun out => (out.getCol "Score_Home", out.getCol "Score_Away", out.hasCol "Score")) =
      some (some [Value.vNum 2], some [Value.vNum 0], false) :=
  C2_score_split dfC2w [Value.vStr "1–1", Value.vStr "0–3"] (by decide) (by decide) (by decide)

def dfC3nodash : DF :=
  ⟨[("Score", [Value.vStr "abc"])]⟩

def dfC3twodash : DF :=
  ⟨[("Score", [Value.vStr "1–2–3", Value.vStr "2–0"])]⟩

/-- Claim C3, counterexample: the claim says a `Score` value without
exactly one en-dash "never raises": yet on a table whose only value has
no en-dash (split width 1), and on a table where some value has two
en-dashes (split width 3), the two-column assignment raises
`ValueError: Columns must be same length as key`. -/
theorem C3_counterexample :
    scoreSplitStep dfC3nodash = .error "Columns must be same length as key" ∧
    scoreSplitStep dfC3twodash = .error "Columns must be same length as key" := by
  constructor
  · decide
  · decide

theorem splitOnDash_ne_nil (l : List Char) : splitOnDash l ≠ [] := by
  cases l with
  | nil => simp [splitOnDash]
  | cons c cs =>
    unfold splitOnDash
    by_cases hc : c = '–'
    · simp [hc]
    · rw [if_neg hc]
      cases splitOnDash cs <;> simp

theorem splitOnDash_length_one (l : List Char) (h : (splitOnDash l).length = 1) :
    splitOnDash l = [l] := by
  induction l with
  | nil => rfl
  | cons c cs ih =>
    unfold splitOnDash at h ⊢
    by_cases hc : c = '–'
    · rw [if_pos hc] at h
      rw [List.length_cons] at h
      have h0 : (splitOnDash cs).length = 0 := by omega
      exact absurd (List.length_eq_zero.mp h0) (splitOnDash_ne_nil cs)
    · rw [if_neg hc] at h ⊢
      cases hsp : splitOnDash cs with
      | nil => exact absurd hsp (splitOnDash_ne_nil cs)
      | cons t ts =>
        rw [hsp] at h
        dsimp only at h
        rw [List.length_cons] at h
        have hts : ts = [] := List.length_eq_zero.mp (by omega)
        subst hts
        have hcs := ih (by rw [hsp]; rfl)
        rw [hsp] at hcs
        injection hcs with h1
        rw [h1]

/-- Claim C3, amended: when the table's split width is exactly two, a
`Score` value with no en-dash gets a null `Score_Away` half and a
`Score_Home` equal to the numeric coercion of the whole value (null when
non-numeric), without raising; outside that case (every value dash-free,
or some value with two or more dashes) the assignment raises, as the
counterexample shows. -/
theorem C3_amended_null_halves (df : DF) (vals : List Value) (i : Nat) (s : String)
    (hget : df.getCol "Score" = some vals)
    (hw : splitWidth vals = 2)
    (hv : vals.getD i Value.vNull = Value.vStr s)
    (h1 : (splitOnDash s.data).length = 1) :
    ∃ df2, scoreSplitStep df = .ok df2 ∧
      (df2.getColD "Score_Away").getD i Value.vNull = Value.vNull ∧
      (df2.getColD "Score_Home").getD i Value.vNull = toNumericV (Value.vStr s) := by
  obtain ⟨df2, hok, hH, hA, hS⟩ := scoreSplitStep_spec df vals hget hw
  have hvg : vals[i]? = some (Value.vStr s) := by
    rw [List.getD_eq_getElem?_getD] at hv
    cases hg : vals[i]? with
    | none =>
      rw [hg] at hv
      simp at hv
    | some v =>
      rw [hg] at hv
      simp at hv
      rw [hv]
  have hsplit : splitPartsV (Value.vStr s) = [Value.vStr s] := by
    have he : splitPartsV (Value.vStr s) =
        (splitOnDash s.data).map (fun l => Value.vStr ⟨l⟩) := rfl
    rw [he, splitOnDash_length_one s.data h1]
    rfl
  refine ⟨df2, hok, ?_, ?_⟩
  · rw [DF.getColD_eq _ _ _ hA, List.getD_eq_getElem?_getD, List.getElem?_map, hvg]
    simp [hsplit, List.getD, toNumericV]
  · rw [DF.getColD_eq _ _ _ hH, List.getD_eq_getElem?_getD, List.getElem?_map, hvg]
    simp [hsplit, List.getD]

def dfC3w : DF :=
  ⟨[("Score", [Value.vStr "2–0", Value.vStr "abc"])]⟩

/-- Witness for the amended C3 at a mixed table. -/
theorem C3_amended_null_halves_witness :
    ∃ df2, scoreSplitStep dfC3w = .ok df2 ∧
      (df2.getColD "Score_Away").getD 1 Value.vNull = Value.vNull ∧
      (df2.getColD "Score_Home").getD 1 Value.vNull = toNumericV (Value.vStr "abc") :=
  C3_amended_null_halves dfC3w [Value.vStr "2–0", Value.vStr "abc"] 1 "abc"
    (by decide) (by decide) (by decide) (by decide)

/-! ## The team-name normalizer (C5, C6) -/

theorem filter_ne_empty_eq_filterMap (g : String → String) (ts : List String) :
    (ts.map g).filter (fun w => w ≠ "") =
      ts.filterMap (fun tok => if g tok = "" then none else some (g tok)) := by
  induction ts with
  | nil => rfl
  | cons t rest ih =>
    rw [List.map_cons, List.filter_cons, List.filterMap_cons]
    by_cases h : g t = ""
    · simp [h]
      simpa using ih
    · simp [h]
      simpa using ih

/-- Claim C5: the function `normalize_team_name` implements exactly the algorithm the
spec states (special case checked before tokenization; token-wise
replacement; empty replacements dropped; single-space rejoin), and the
stated default-corrections instances hold. -/
theorem C5_normalize_algorithm :
    (∀ (corr : List (String × String)) (raw : String),
        normalize_team_name corr raw = normalizeSpec corr raw) ∧
    normalize_team_name TEAM_NAME_CORRECTIONS "Tottenham Spurs" = "Tottenham Hotspur" ∧
    normalize_team_name TEAM_NAME_CORRECTIONS "Man Utd" = "Manchester United" ∧
    normalize_team_name TEAM_NAME_CORRECTIONS "Arsenal AFC" = "Arsenal" := by
  refine ⟨?_, by decide, by decide, by decide⟩
  intro corr raw
  unfold normalize_team_name normalizeSpec
  split
  · rfl
  · exact congrArg joinTokens (filter_ne_empty_eq_filterMap (applyCorr corr) (strTokens raw))

theorem splitWsAcc_nil (acc : List Char) :
    splitWsAcc [] acc = if acc.isEmpty then [] else [acc.reverse] := rfl

theorem splitWsAcc_cons_ws (c : Char) (cs acc : List Char) (h : isWs c = true) :
    splitWsAcc (c :: cs) acc =
      if acc.isEmpty then splitWsAcc cs [] else acc.reverse :: splitWsAcc cs [] := by
  simp only [splitWsAcc]
  rw [if_pos h]

theorem splitWsAcc_cons_nonws (c : Char) (cs acc : List Char) (h : isWs c = false) :
    splitWsAcc (c :: cs) acc = splitWsAcc cs (c :: acc) := by
  simp only [splitWsAcc]
  rw [if_neg (by simp [h])]

theorem splitWsAcc_append_space (xs : List Char) (acc : List Char) (ys : List Char) :
    splitWsAcc (xs ++ ' ' :: ys) acc = splitWsAcc xs acc ++ splitWsAcc ys [] := by
  induction xs generalizing acc with
  | nil =>
    rw [List.nil_append, splitWsAcc_cons_ws ' ' ys acc rfl, splitWsAcc_nil]
    by_cases h : acc.isEmpty
    · rw [if_pos h, if_pos h, List.nil_append]
    · rw [if_neg h, if_neg h, List.singleton_append]
  | cons c cs ih =>
    rw [List.cons_append]
    by_cases h : isWs c
    · rw [splitWsAcc_cons_ws c _ acc h, splitWsAcc_cons_ws c cs acc h]
      by_cases ha : acc.isEmpty
      · rw [if_pos ha, if_pos ha, ih]
      · rw [if_neg ha, if_neg ha, ih, List.cons_append]
    · have h2 : isWs c = false := by simpa using h
      rw [splitWsAcc_cons_nonws c _ acc h2, splitWsAcc_cons_nonws c cs acc h2, ih]

theorem splitWs_joinWs (ls : List (List Char)) :
    splitWs (joinWs ls) = (ls.map splitWs).flatten := by
  induction ls with
  | nil => rfl
  | cons p rest ih =>
    cases rest with
    | nil =>
      rw [show joinWs [p] = p from rfl, List.map_cons, List.map_nil, List.flatten_cons,
          List.flatten_nil, List.append_nil]
    | cons q rest2 =>
      rw [show joinWs (p :: q :: rest2) = p ++ ' ' :: joinWs (q :: rest2) from rfl]
      unfold splitWs
      rw [splitWsAcc_append_space]
      rw [List.map_cons, List.flatten_cons]
      unfold splitWs at ih
      rw [ih]

theorem splitWsAcc_mem (xs : List Char) (acc : List Char)
    (hacc : ∀ c ∈ acc, isWs c = false) :
    ∀ t ∈ splitWsAcc xs acc, t ≠ [] ∧ ∀ c ∈ t, isWs c = false := by
  induction xs generalizing acc with
  | nil =>
    intro t ht
    rw [splitWsAcc_nil] at ht
    by_cases h : acc.isEmpty
    · rw [if_pos h] at ht
      cases ht
    · rw [if_neg h] at ht
      rw [List.mem_singleton] at ht
      subst ht
      constructor
      · intro he
        exact h (by simp [List.isEmpty_iff, ← List.reverse_eq_nil_iff, he])
      · intro c hc
        exact hacc c (List.mem_reverse.mp hc)
  | cons a as ih =>
    intro t ht
    by_cases hw : isWs a
    · rw [splitWsAcc_cons_ws a as acc hw] at ht
      by_cases h : acc.isEmpty
      · rw [if_pos h] at ht
        exact ih [] (by intro c hc; cases hc) t ht
      · rw [if_neg h] at ht
        rcases List.mem_cons.mp ht with rfl | ht2
        · constructor
          · intro he
            exact h (by simp [List.isEmpty_iff, ← List.reverse_eq_nil_iff, he])
          · intro c hc
            exact hacc c (List.mem_reverse.mp hc)
        · exact ih [] (by intro c hc; cases hc) t ht2
    · have hw2 : isWs a = false := by simpa using hw
      rw [splitWsAcc_cons_nonws a as acc hw2] at ht
      refine ih (a :: acc) ?_ t ht
      intro c hc
      rcases List.mem_cons.mp hc with rfl | hc2
      · exact hw2
      · exact hacc c hc2

theorem splitWsAcc_all_nonws (xs : List Char) (h : ∀ c ∈ xs, isWs c = false) :
    ∀ acc, splitWsAcc xs acc =
      if (acc.reverse ++ xs).isEmpty then [] else [acc.reverse ++ xs] := by
  induction xs with
  | nil =>
    intro acc
    rw [splitWsAcc_nil, List.append_nil]
    by_cases ha : acc = []
    · subst ha
      rfl
    · rw [if_neg (by simp [List.isEmpty_iff, ha]),
          if_neg (by simp [List.isEmpty_iff, List.reverse_eq_nil_iff, ha])]
  | cons a as ih =>
    intro acc
    rw [splitWsAcc_cons_nonws a as acc (h a (List.mem_cons_self a as)),
        ih (fun c hc => h c (List.mem_cons_of_mem a hc)) (a :: acc),
        List.reverse_cons, List.append_assoc, List.singleton_append]

theorem strTokens_spec (s : String) :
    ∀ tok ∈ strTokens s, tok ≠ "" ∧ ∀ c ∈ tok.data, isWs c = false := by
  intro tok htok
  unfold strTokens at htok
  obtain ⟨t, ht, hmk⟩ := List.mem_map.mp htok
  obtain ⟨hne, hnws⟩ := splitWsAcc_mem s.data [] (by intro c hc; cases hc) t ht
  subst hmk
  constructor
  · intro he
    exact hne (congrArg String.data he)
  · intro c hc
    exact hnws c hc

theorem strTokens_single (tok : String) (hne : tok ≠ "")
    (hnws : ∀ c ∈ tok.data, isWs c = false) : strTokens tok = [tok] := by
  unfold strTokens splitWs
  rw [splitWsAcc_all_nonws tok.data hnws [], List.reverse_nil, List.nil_append]
  rw [if_neg (by
    simp only [List.isEmpty_iff]
    intro h
    exact hne (String.ext h))]
  rfl

theorem strTokens_joinTokens (ts : List String) :
    strTokens (joinTokens ts) = (ts.map strTokens).flatten := by
  unfold strTokens joinTokens
  rw [show (String.mk (joinWs (ts.map String.data))).data = joinWs (ts.map String.data)
    from rfl]
  rw [splitWs_joinWs, List.map_flatten, List.map_map, List.map_map]
  rfl

theorem joinTokens_single (t : String) : joinTokens [t] = t := rfl

theorem joinWs_cons_append (x : List Char) (xs lb : List (List Char)) (hb : lb ≠ []) :
    joinWs ((x :: xs) ++ lb) = joinWs (x :: xs) ++ ' ' :: joinWs lb := by
  induction xs generalizing x with
  | nil =>
    cases lb with
    | nil => exact absurd rfl hb
    | cons y ys => rfl
  | cons z zs ih =>
    have h1 : joinWs ((x :: z :: zs) ++ lb) = x ++ ' ' :: joinWs ((z :: zs) ++ lb) := rfl
    rw [h1, ih z]
    rw [show joinWs (x :: z :: zs) = x ++ ' ' :: joinWs (z :: zs) from rfl]
    rw [List.append_assoc]
    rfl

theorem joinTokens_cons_append (x : String) (xs lb : List String) (hb : lb ≠ []) :
    joinTokens ((x :: xs) ++ lb) = joinTokens (x :: xs) ++ " " ++ joinTokens lb := by
  show String.mk (joinWs (((x :: xs) ++ lb).map String.data)) =
    String.mk ((joinWs ((x :: xs).map String.data) ++ [' ']) ++ joinWs (lb.map String.data))
  rw [List.map_append, List.map_cons]
  rw [joinWs_cons_append x.data (xs.map String.data) (lb.map String.data)
    (by simpa using hb)]
  congr 1
  rw [List.append_assoc, List.singleton_append]

theorem flatten_tokens_ne_nil (q : String) (rest2 : List String)
    (hq : strTokens q ≠ []) :
    (((q :: rest2).map strTokens).flatten) ≠ [] := by
  rw [List.map_cons, List.flatten_cons]
  intro hcontra
  rcases List.append_eq_nil.mp hcontra with ⟨h1, _⟩
  exact hq h1

theorem joinTokens_flatten (P : List String)
    (h : ∀ p ∈ P, strTokens p ≠ [] ∧ joinTokens (strTokens p) = p) :
    joinTokens ((P.map strTokens).flatten) = joinTokens P := by
  induction P with
  | nil => rfl
  | cons p rest ih =>
    cases rest with
    | nil =>
      rw [List.map_cons, List.map_nil, List.flatten_cons, List.flatten_nil,
          List.append_nil]
      exact (h p (List.mem_cons_self p [])).2
    | cons q rest2 =>
      have hp := h p (List.mem_cons_self p _)
      have hrest : ∀ x ∈ q :: rest2, strTokens x ≠ [] ∧ joinTokens (strTokens x) = x :=
        fun x hx => h x (List.mem_cons_of_mem p hx)
      have hq := hrest q (List.mem_cons_self q rest2)
      have hjoin_ne := flatten_tokens_ne_nil q rest2 hq.1
      rw [List.map_cons, List.flatten_cons]
      cases hsp : strTokens p with
      | nil => exact absurd hsp hp.1
      | cons t ts =>
        rw [joinTokens_cons_append t ts _ hjoin_ne, ← hsp, hp.2, ih hrest]
        rw [show p :: q :: rest2 = [p] ++ (q :: rest2) from rfl,
            joinTokens_cons_append p [] (q :: rest2) (by simp), joinTokens_single]

theorem normTokens_id (corr : List (String × String)) (L : List String)
    (h : ∀ x ∈ L, applyCorr corr x = x ∧ x ≠ "") :
    normTokens corr L = L := by
  unfold normTokens
  rw [List.map_congr_left (fun x hx => (h x hx).1), List.map_id' L]
  exact List.filter_eq_self.mpr (fun x hx => by simp [(h x hx).2])

theorem normTokens_mem (corr : List (String × String)) (ts : List String) (p : String)
    (hp : p ∈ normTokens corr ts) :
    p ≠ "" ∧ ((p ∈ ts ∧ lookupCorr corr p = none) ∨
      (∃ tok v, lookupCorr corr tok = some v ∧ p = v)) := by
  unfold normTokens at hp
  rw [List.mem_filter] at hp
  obtain ⟨hmem, hne⟩ := hp
  obtain ⟨tok, htok, happ⟩ := List.mem_map.mp hmem
  refine ⟨by simpa using hne, ?_⟩
  unfold applyCorr at happ
  cases hl : lookupCorr corr tok with
  | none =>
    rw [hl] at happ
    simp at happ
    subst happ
    exact Or.inl ⟨htok, hl⟩
  | some v =>
    rw [hl] at happ
    simp at happ
    exact Or.inr ⟨tok, v, hl, happ.symm⟩

theorem lookupCorr_some_mem (corr : List (String × String)) (k v : String)
    (h : lookupCorr corr k = some v) : ∃ kv ∈ corr, kv.1 = k ∧ kv.2 = v := by
  unfold lookupCorr at h
  cases hf : corr.find? (fun kv => kv.1 = k) with
  | none =>
    rw [hf] at h
    cases h
  | some kv =>
    rw [hf] at h
    simp at h
    exact ⟨kv, List.mem_of_find?_eq_some hf, by simpa using List.find?_some hf, h⟩

/-- No chained substitutions: no whitespace-token of any replacement
value is itself a correction key. -/
abbrev NoChained (corr : List (String × String)) : Prop :=
  ∀ kv ∈ corr, ∀ tok ∈ strTokens kv.2, lookupCorr corr tok = none

/-- Every replacement value is already in normalized token form:
rejoining its tokens with single spaces reproduces it exactly. -/
abbrev ValuesNormal (corr : List (String × String)) : Prop :=
  ∀ kv ∈ corr, joinTokens (strTokens kv.2) = kv.2

/-- Claim C6, counterexample: the empty corrections mapping vacuously has
no chained substitutions, yet `normalize_team_name` is not idempotent on
the input `"Tottenham  Spurs"` (two spaces): the first pass collapses the
whitespace to the exact string `"Tottenham Spurs"`, so the second pass
fires the hard-coded special case and returns `"Tottenham Hotspur"`. -/
theorem C6_counterexample :
    NoChained ([] : List (String × String)) ∧
    normalize_team_name [] (normalize_team_name [] "Tottenham  Spurs") ≠
      normalize_team_name [] "Tottenham  Spurs" := by
  constructor
  · intro kv hkv
    cases hkv
  · decide

/-- Claim C6, amended: idempotence holds under the no-chained-substitution
precondition once three further side conditions forced by the
counterexample and the special case are added: replacement values are in
normalized token form, `"Tottenham"` and `"Hotspur"` are not correction
keys, and the first normalization's output is not the exact string
`"Tottenham Spurs"` (which would re-fire the special case). -/
theorem C6_amended_idempotent (corr : List (String × String))
    (hchain : NoChained corr) (hnorm : ValuesNormal corr)
    (hT : lookupCorr corr "Tottenham" = none)
    (hH : lookupCorr corr "Hotspur" = none)
    (t : String) (hts : normalize_team_name corr t ≠ "Tottenham Spurs") :
    normalize_team_name corr (normalize_team_name corr t) =
      normalize_team_name corr t := by
  by_cases h0 : t = "Tottenham Spurs"
  · subst h0
    have h1 : normalize_team_name corr "Tottenham Spurs" = "Tottenham Hotspur" := by
      unfold normalize_team_name
      rw [if_pos rfl]
    rw [h1]
    unfold normalize_team_name
    rw [if_neg (by decide)]
    have htok : strTokens "Tottenham Hotspur" = ["Tottenham", "Hotspur"] := by decide
    rw [htok]
    have hmap : normTokens corr ["Tottenham", "Hotspur"] = ["Tottenham", "Hotspur"] := by
      apply normTokens_id
      intro x hx
      rcases List.mem_cons.mp hx with rfl | hx2
      · exact ⟨by unfold applyCorr; rw [hT]; rfl, by decide⟩
      · rcases List.mem_singleton.mp hx2 with rfl
        exact ⟨by unfold applyCorr; rw [hH]; rfl, by decide⟩
    rw [hmap]
    decide
  · have hdef : normalize_team_name corr t = joinTokens (normTokens corr (strTokens t)) := by
      unfold normalize_team_name
      rw [if_neg h0]
    rw [hdef]
    unfold normalize_team_name
    rw [if_neg (by rw [← hdef]; exact hts)]
    rw [strTokens_joinTokens]
    have hPfacts : ∀ p ∈ normTokens corr (strTokens t),
        (strTokens p ≠ [] ∧ joinTokens (strTokens p) = p) ∧
        ∀ tok ∈ strTokens p, applyCorr corr tok = tok ∧ tok ≠ "" := by
      intro p hp
      obtain ⟨hpne, hcase⟩ := normTokens_mem corr (strTokens t) p hp
      rcases hcase with ⟨hmem, hnone⟩ | ⟨tok, v, hlk, rfl⟩
      · have hsp := strTokens_spec t p hmem
        have hsingle := strTokens_single p hsp.1 hsp.2
        refine ⟨⟨by rw [hsingle]; simp, by rw [hsingle]; exact joinTokens_single p⟩, ?_⟩
        intro tok htk
        rw [hsingle] at htk
        rcases List.mem_singleton.mp htk with rfl
        exact ⟨by unfold applyCorr; rw [hnone]; rfl, hsp.1⟩
      · obtain ⟨kv, hkv, hk1, hk2⟩ := lookupCorr_some_mem corr tok p hlk
        have hnormv : joinTokens (strTokens p) = p := by
          rw [← hk2]
          exact hnorm kv hkv
        have hne2 : strTokens p ≠ [] := by
          intro hnil
          rw [hnil] at hnormv
          exact hpne hnormv.symm
        refine ⟨⟨hne2, hnormv⟩, ?_⟩
        intro tok2 htk2
        have hlk2 : lookupCorr corr tok2 = none := by
          apply hchain kv hkv tok2
          rw [hk2]
          exact htk2
        have hspec := strTokens_spec p tok2 htk2
        exact ⟨by unfold applyCorr; rw [hlk2]; rfl, hspec.1⟩
    have hid : normTokens corr
        (((normTokens corr (strTokens t)).map strTokens).flatten) =
        ((normTokens corr (strTokens t)).map strTokens).flatten := by
      apply normTokens_id
      intro x hx
      rw [List.mem_flatten] at hx
      obtain ⟨l, hl, hxl⟩ := hx
      obtain ⟨p, hp, hpl⟩ := List.mem_map.mp hl
      subst hpl
      exact (hPfacts p hp).2 x hxl
    rw [hid]
    exact joinTokens_flatten (normTokens corr (strTokens t))
      (fun p hp => (hPfacts p hp).1)

def corrW : List (String × String) := [("Utd", "United")]

/-- Witness for the amended C6 at a concrete mapping and name. -/
theorem C6_amended_idempotent_witness :
    normalize_team_name corrW (normalize_team_name corrW "Man Utd") =
      normalize_team_name corrW "Man Utd" :=
  C6_amended_idempotent corrW (by decide) (by decide) (by decide) (by decide)
    "Man Utd" (by decide)

end FootballCsv
